import Mathlib

/-!
Verification development for the automation-pcg workflow engine.

The Python sources (`app/utils/expression.py`, `app/engine/executor.py`,
`app/engine/node_handlers.py`, `app/services/gmail_poller.py`) are embedded
shallowly below.  Python / JSON values are modelled by the inductive `Json`
(numbers are modelled as integers; no claim here depends on float semantics),
Python strings by `List Char`, and Python `None` by `Json.null`.  Stateful
code is modelled by explicit state passing.  External library calls that the
claims do not depend on (base64+utf-8 decoding, `json.loads`) enter as
function parameters.  Python `set` iteration order, which is
implementation-defined (hash-based), enters as an explicit order parameter.
-/

namespace Agentkit

/-- A Python/JSON value.  `Json.null` models Python `None`; `num` models
Python `int` (floats are out of scope for the verified claims); object
fields model `dict` entries in insertion order with distinct keys. -/
inductive Json where
  | null
  | bool (b : Bool)
  | num (n : Int)
  | str (s : List Char)
  | arr (elems : List Json)
  | obj (fields : List (List Char × Json))

/-- `dict.get k` on an association list: first binding wins (Python dicts
have unique keys, so this matches lookup in a dict). -/
def dictGet (fields : List (List Char × Json)) (k : List Char) : Option Json :=
  match fields with
  | [] => none
  | (k2, v) :: rest => if k2 = k then some v else dictGet rest k

/-- Python's whitespace class for `str.strip` and the regex class for
backslash-s, restricted to the ASCII range (the inputs the repository
handles); matches `' '`, tab, newline, carriage return, vertical tab,
form feed. -/
def isPySpace (c : Char) : Bool :=
  c == ' ' || c == '\t' || c == '\n' || c == '\r' || c == '\x0b' || c == '\x0c'

/-- `str.strip()`: removes leading and trailing whitespace. -/
def stripChars (s : List Char) : List Char :=
  ((s.dropWhile isPySpace).reverse.dropWhile isPySpace).reverse

/-- Decimal digit character of `n < 10`. -/
def digitChar (n : Nat) : Char := Char.ofNat (48 + n)

/-- Decimal rendering of a natural number, as Python's `str` produces it. -/
def natToStr (n : Nat) : List Char :=
  if n < 10 then [digitChar n] else natToStr (n / 10) ++ [digitChar (n % 10)]
termination_by n
decreasing_by exact Nat.div_lt_self (by omega) (by omega)

/-- Decimal rendering of an integer, as Python's `str` produces it. -/
def intToStr (i : Int) : List Char :=
  if i < 0 then '-' :: natToStr (-i).toNat else natToStr i.toNat

/-- Value of an ASCII decimal digit. -/
def digitVal (c : Char) : Option Nat :=
  if '0' ≤ c ∧ c ≤ '9' then some (c.toNat - 48) else none

/-- Digit-sequence part of Python `int` parsing: decimal digits with single
underscores allowed between digits (Python 3 literal grammar as accepted by
`int(str)`), ASCII digits only. -/
def digitsLoop (acc : Nat) : List Char → Option Nat
  | [] => some acc
  | '_' :: c :: rest =>
    match digitVal c with
    | some d => digitsLoop (acc * 10 + d) rest
    | none => none
  | c :: rest =>
    match digitVal c with
    | some d => digitsLoop (acc * 10 + d) rest
    | none => none

/-- Nonempty digit sequence, not starting with an underscore. -/
def parseDigits : List Char → Option Nat
  | [] => none
  | '_' :: _ => none
  | cs => digitsLoop 0 cs

/-- Python `int(s)` on a string: strips whitespace, accepts an optional
sign, then a digit sequence; `none` models the `ValueError` raise.
(Modelled for ASCII digits; the repository's path segments are ASCII.) -/
def pyInt (s : List Char) : Option Int :=
  match stripChars s with
  | '+' :: rest => (parseDigits rest).map (fun n => (n : Int))
  | '-' :: rest => (parseDigits rest).map (fun n => -(n : Int))
  | cs => (parseDigits cs).map (fun n => (n : Int))

/-- Python list subscription `xs[i]` with negative-index semantics:
`-1` is the last element; `none` models the `IndexError` raise. -/
def pyIndex (xs : List Json) (i : Int) : Option Json :=
  if 0 ≤ i then xs[i.toNat]?
  else if -i ≤ (xs.length : Int) then xs[xs.length - (-i).toNat]? else none

/-!  ### `app/utils/expression.py`  -/

/-- `v is None` in Python, i.e. the value is the null/`None` value. -/
def isNull : Json → Bool
  | Json.null => true
  | _ => false

/-- Loop body of `resolve_expression`: walk the split path through the
context.  A `dict` is looked up by key, a `list` is subscripted by
`int(part)` with `ValueError`/`IndexError` caught to `None`, anything else
yields `None`; a `None` (absent key, stored null, or failure) short-circuits. -/
def resolveParts : List (List Char) → Json → Json
  | [], cur => cur
  | part :: rest, cur =>
    match cur with
    | Json.obj fields =>
      match dictGet fields part with
      | none => Json.null
      | some v => if isNull v then Json.null else resolveParts rest v
    | Json.arr xs =>
      match pyInt part with
      | none => Json.null
      | some i =>
        match pyIndex xs i with
        | none => Json.null
        | some v => if isNull v then Json.null else resolveParts rest v
    | _ => Json.null

/-- `resolve_expression(expression, context)`: strip the expression, split
on `.`, walk the context.  `Json.null` is Python `None` (absent). -/
def resolve_expression (expression : List Char) (context : Json) : Json :=
  resolveParts ((stripChars expression).splitOn '.') context

/-!  The token regex is `\x7b\x7b(.+?)\x7d\x7d` (two opening braces, a lazy
nonempty group of non-newline characters, two closing braces).  `bodyScan`
reproduces the lazy group: having consumed at least one character, it stops
at the first following pair of closing braces; `.` never matches a newline. -/

/-- Lazy scan for the token body: `acc` is the reversed body consumed so
far; only once the body is nonempty does the scan stop at a pair of closing
braces; returns the body and the remainder after the closing braces. -/
def bodyScan (acc : List Char) : List Char → Option (List Char × List Char)
  | [] => none
  | c :: rest =>
    if acc ≠ [] ∧ c = '\x7d' ∧ rest.head? = some '\x7d' then
      some (acc.reverse, rest.tail)
    else if c = '\n' then none
    else bodyScan (c :: acc) rest

/-- A successful `bodyScan` consumes at least the closing braces. -/
theorem bodyScan_length (acc cs b r : List Char)
    (h : bodyScan acc cs = some (b, r)) : r.length + 2 ≤ cs.length := by
  induction cs generalizing acc with
  | nil => simp [bodyScan] at h
  | cons c rest ih =>
    rw [bodyScan] at h
    split at h
    · rename_i hcond
      obtain ⟨-, -, hhd⟩ := hcond
      simp only [Option.some.injEq, Prod.mk.injEq] at h
      match rest, hhd with
      | c2 :: rest2, _ =>
        rw [← h.2]
        simp
    · split at h
      · exact absurd h (by simp)
      · have := ih _ h
        simpa using Nat.le_succ_of_le this

/-- Quote character Python `repr` picks for a string: single quotes unless
the string contains a single quote and no double quote. -/
def reprQuote (s : List Char) : Char :=
  if s.contains '\'' && !(s.contains '"') then '"' else '\''

/-- Escaping of one character inside a Python string repr (backslash, the
quote character, and the common control characters; other characters are
kept as-is — the repository's data is printable text). -/
def escapeChar (q : Char) (c : Char) : List Char :=
  if c = '\\' ∨ c = q then ['\\', c]
  else if c = '\n' then ['\\', 'n']
  else if c = '\r' then ['\\', 'r']
  else if c = '\t' then ['\\', 't']
  else [c]

/-- Python `repr` of a string. -/
def pyReprStr (s : List Char) : List Char :=
  let q := reprQuote s
  q :: (s.map (escapeChar q)).flatten ++ [q]

mutual

/-- Python `repr` of a value (used for elements nested inside containers
when `str` is applied to the container). -/
def pyRepr : Json → List Char
  | Json.null => "None".data
  | Json.bool true => "True".data
  | Json.bool false => "False".data
  | Json.num n => intToStr n
  | Json.str s => pyReprStr s
  | Json.arr xs => '[' :: (pyReprElems xs ++ [']'])
  | Json.obj fields => '\x7b' :: (pyReprFields fields ++ ['\x7d'])

/-- Comma-separated reprs of list elements. -/
def pyReprElems : List Json → List Char
  | [] => []
  | [x] => pyRepr x
  | x :: y :: rest => pyRepr x ++ ',' :: ' ' :: pyReprElems (y :: rest)

/-- Comma-separated `key: value` reprs of dict entries. -/
def pyReprFields : List (List Char × Json) → List Char
  | [] => []
  | [(k, v)] => pyReprStr k ++ ':' :: ' ' :: pyRepr v
  | (k, v) :: kv2 :: rest =>
    pyReprStr k ++ ':' :: ' ' :: pyRepr v ++ ',' :: ' ' :: pyReprFields (kv2 :: rest)

end

/-- Python `str` of a value: a string is itself, anything else its repr
(`str(None) = "None"`, `str(5) = "5"`, containers use elementwise repr). -/
def pyStr : Json → List Char
  | Json.str s => s
  | v => pyRepr v

/-- The substitution replacer `str(val) if val is not None else ""`. -/
def strFormOf : Json → List Char
  | Json.null => []
  | v => pyStr v

/-- `EXPRESSION_PATTERN.sub(replacer, template)`: scan left to right; at
each pair of opening braces try the lazy body scan; on a match emit the
string form of the resolved body and continue after the match, otherwise
advance one character. -/
def substTokens (f : List Char → Json) : List Char → List Char
  | '\x7b' :: '\x7b' :: rest =>
    match h : bodyScan [] rest with
    | some (body, rest2) => strFormOf (f body) ++ substTokens f rest2
    | none => '\x7b' :: substTokens f ('\x7b' :: rest)
  | c :: rest => c :: substTokens f rest
  | [] => []
termination_by s => s.length
decreasing_by
  · have := bodyScan_length [] rest _ _ h
    simp
    omega
  · simp
  · simp

/-- `EXPRESSION_PATTERN.fullmatch(template)`: the whole string is two
opening braces, a nonempty newline-free body, and two closing braces (the
lazy group backtracks until the match spans the whole string, so the body
is everything strictly between the outer brace pairs). -/
def fullTokenBody (s : List Char) : Option (List Char) :=
  match s with
  | '\x7b' :: '\x7b' :: rest =>
    let body := rest.take (rest.length - 2)
    if 3 ≤ rest.length ∧ rest.drop (rest.length - 2) = ['\x7d', '\x7d'] ∧ ¬ '\n' ∈ body
    then some body
    else none
  | _ => none

mutual

/-- `interpolate(template, context)`: on a string, if the whole string is a
single token return the resolved value natively, else substitute each token
occurrence; recurse into dicts and lists; return anything else unchanged. -/
def interpolate : Json → Json → Json
  | Json.str s, context =>
    match fullTokenBody s with
    | some body => resolve_expression body context
    | none => Json.str (substTokens (fun e => resolve_expression e context) s)
  | Json.obj fields, context => Json.obj (interpolateFields fields context)
  | Json.arr xs, context => Json.arr (interpolateElems xs context)
  | t, _ => t

/-- The dict comprehension branch of `interpolate`. -/
def interpolateFields : List (List Char × Json) → Json → List (List Char × Json)
  | [], _ => []
  | (k, v) :: rest, context => (k, interpolate v context) :: interpolateFields rest context

/-- The list comprehension branch of `interpolate`. -/
def interpolateElems : List Json → Json → List Json
  | [], _ => []
  | x :: rest, context => interpolate x context :: interpolateElems rest context

end

/-!  ### Exception-instrumented resolver (for the totality claim)

The Python operations inside `resolve_expression` that can raise are
`int(part)` (`ValueError`) and list subscription (`IndexError`); the source
wraps both in `try ... except (ValueError, IndexError): return None`.  The
instrumented functions below propagate uncaught exceptions in `Except`;
proving them equal to `Except.ok` of the plain functions shows no exception
escapes `resolve_expression` or `interpolate`. -/

/-- Python exception kinds raisable inside the embedded code. -/
inductive PyExc where
  | valueError
  | indexError
  | typeError

/-- `int(part)` with its `ValueError` made explicit. -/
def pyIntE (s : List Char) : Except PyExc Int :=
  match pyInt s with
  | some i => Except.ok i
  | none => Except.error PyExc.valueError

/-- `xs[i]` with its `IndexError` made explicit. -/
def pyIndexE (xs : List Json) (i : Int) : Except PyExc Json :=
  match pyIndex xs i with
  | some v => Except.ok v
  | none => Except.error PyExc.indexError

/-- `resolveParts` with exception propagation; the source's
`except (ValueError, IndexError)` clause catches every exception kind the
guarded operations can raise, returning `None`. -/
def resolvePartsE : List (List Char) → Json → Except PyExc Json
  | [], cur => Except.ok cur
  | part :: rest, cur =>
    match cur with
    | Json.obj fields =>
      match dictGet fields part with
      | none => Except.ok Json.null
      | some v => if isNull v then Except.ok Json.null else resolvePartsE rest v
    | Json.arr xs =>
      match pyIntE part with
      | Except.error PyExc.valueError => Except.ok Json.null
      | Except.error PyExc.indexError => Except.ok Json.null
      | Except.error e => Except.error e
      | Except.ok i =>
        match pyIndexE xs i with
        | Except.error PyExc.valueError => Except.ok Json.null
        | Except.error PyExc.indexError => Except.ok Json.null
        | Except.error e => Except.error e
        | Except.ok v => if isNull v then Except.ok Json.null else resolvePartsE rest v
    | _ => Except.ok Json.null

/-- `resolve_expression` with exception propagation. -/
def resolve_expressionE (expression : List Char) (context : Json) : Except PyExc Json :=
  resolvePartsE ((stripChars expression).splitOn '.') context

/-- `EXPRESSION_PATTERN.sub` with exception propagation from the replacer. -/
def substTokensE (f : List Char → Except PyExc Json) : List Char → Except PyExc (List Char)
  | '\x7b' :: '\x7b' :: rest =>
    match h : bodyScan [] rest with
    | some (body, rest2) => do
      let v ← f body
      let tail ← substTokensE f rest2
      return strFormOf v ++ tail
    | none => do
      let tail ← substTokensE f ('\x7b' :: rest)
      return '\x7b' :: tail
  | c :: rest => do
    let tail ← substTokensE f rest
    return c :: tail
  | [] => Except.ok []
termination_by s => s.length
decreasing_by
  · have := bodyScan_length [] rest _ _ h
    simp
    omega
  · simp
  · simp

mutual

/-- `interpolate` with exception propagation. -/
def interpolateE : Json → Json → Except PyExc Json
  | Json.str s, context =>
    match fullTokenBody s with
    | some body => resolve_expressionE body context
    | none =>
      match substTokensE (fun e => resolve_expressionE e context) s with
      | Except.ok out => Except.ok (Json.str out)
      | Except.error e => Except.error e
  | Json.obj fields, context =>
    match interpolateFieldsE fields context with
    | Except.ok out => Except.ok (Json.obj out)
    | Except.error e => Except.error e
  | Json.arr xs, context =>
    match interpolateElemsE xs context with
    | Except.ok out => Except.ok (Json.arr out)
    | Except.error e => Except.error e
  | t, _ => Except.ok t

/-- The dict branch of `interpolateE`. -/
def interpolateFieldsE : List (List Char × Json) → Json → Except PyExc (List (List Char × Json))
  | [], _ => Except.ok []
  | (k, v) :: rest, context => do
    let v2 ← interpolateE v context
    let rest2 ← interpolateFieldsE rest context
    return (k, v2) :: rest2

/-- The list branch of `interpolateE`. -/
def interpolateElemsE : List Json → Json → Except PyExc (List Json)
  | [], _ => Except.ok []
  | x :: rest, context => do
    let x2 ← interpolateE x context
    let rest2 ← interpolateElemsE rest context
    return x2 :: rest2

end

/-!  ### `app/engine/node_handlers.py` — ExtractContentNodeHandler  -/

/-- Python truthiness of a value (`if content:` etc.). -/
def pyTruthy : Json → Bool
  | Json.null => false
  | Json.bool b => b
  | Json.num n => n != 0
  | Json.str s => !s.isEmpty
  | Json.arr xs => !xs.isEmpty
  | Json.obj fields => !fields.isEmpty

/-- `sep.join(texts)`. -/
def joinSep (sep : List Char) : List (List Char) → List Char
  | [] => []
  | [x] => x
  | x :: y :: rest => x ++ sep ++ joinSep sep (y :: rest)

/-- `str(data.get(k, ""))`: the default applies only when the key is
absent; a present value (even null) goes through `str`. -/
def pyStrGetD (data : List (List Char × Json)) (k : List Char) : List Char :=
  match dictGet data k with
  | none => []
  | some v => pyStr v

/-!  The tag regex is `<[^>]+>`: an opening angle bracket, a lazy-irrelevant
nonempty run of non-`>` characters (the class matches newlines), a closing
angle bracket; each match is replaced by a single space. -/

/-- After the character following `<`, scan to the first `>`. -/
def tagEndGo : List Char → Option (List Char)
  | [] => none
  | '>' :: rest => some rest
  | _ :: rest => tagEndGo rest

/-- Match of `[^>]+>` after an `<`: at least one non-`>` character, then
everything up to and including the first `>`. -/
def tagEnd : List Char → Option (List Char)
  | [] => none
  | '>' :: _ => none
  | _ :: rest => tagEndGo rest

/-- A successful `tagEndGo` consumes at least the closing bracket. -/
theorem tagEndGo_length (cs r : List Char) (h : tagEndGo cs = some r) :
    r.length + 1 ≤ cs.length := by
  induction cs with
  | nil => simp [tagEndGo] at h
  | cons c rest ih =>
    rw [tagEndGo.eq_def] at h
    split at h
    · exact absurd h (by simp)
    · rename_i rest3 heq
      obtain rfl := Option.some.inj h
      rw [List.cons.injEq] at heq
      rw [← heq.2]
      simp
    · rename_i c2 rest2 hne heq
      rw [List.cons.injEq] at heq
      have := ih (heq.2.symm ▸ h)
      simp only [List.length_cons]
      omega

/-- A successful `tagEnd` consumes at least two characters. -/
theorem tagEnd_length (cs r : List Char) (h : tagEnd cs = some r) :
    r.length + 2 ≤ cs.length := by
  cases cs with
  | nil => simp [tagEnd] at h
  | cons c rest =>
    rw [tagEnd.eq_def] at h
    split at h
    · exact absurd h (by simp)
    · exact absurd h (by simp)
    · rename_i c2 rest2 hne heq
      rw [List.cons.injEq] at heq
      have := tagEndGo_length rest2 r (heq.2.symm ▸ h)
      simp only [List.length_cons]
      rw [heq.2]
      omega

/-- `re.sub(r"<[^>]+>", " ", body)`: leftmost matches of the tag pattern
are each replaced by one space; a bare `<` with no tag after it is kept. -/
def stripTags : List Char → List Char
  | '<' :: rest =>
    match h : tagEnd rest with
    | some rest2 => ' ' :: stripTags rest2
    | none => '<' :: stripTags rest
  | c :: rest => c :: stripTags rest
  | [] => []
termination_by s => s.length
decreasing_by
  · have := tagEnd_length rest _ h
    simp
    omega
  · simp
  · simp

/-- `dropWhile` never lengthens a list (termination helper). -/
theorem dropWhile_length_le (p : Char → Bool) (l : List Char) :
    (l.dropWhile p).length ≤ l.length := by
  induction l with
  | nil => simp
  | cons c rest ih =>
    rw [List.dropWhile_cons]
    split
    · exact le_trans ih (by simp)
    · simp

/-- Second substitution of the handler: runs of whitespace collapse to a
single space. -/
def collapseWs : List Char → List Char
  | [] => []
  | c :: rest =>
    if isPySpace c then ' ' :: collapseWs (rest.dropWhile isPySpace)
    else c :: collapseWs rest
termination_by s => s.length
decreasing_by
  · have := dropWhile_length_le isPySpace rest
    simp
    omega
  · simp

/-- `clean_body`: strip the HTML-like tags, collapse whitespace, strip the
ends. -/
def cleanBody (body : List Char) : List Char :=
  stripChars (collapseWs (stripTags body))

/-- `att.get("filename", att.get("name", "attachment"))`: `dict.get` falls
back only when the key is absent, not when its value is null. -/
def attachmentName (fields : List (List Char × Json)) : Json :=
  match dictGet fields "filename".data with
  | some v => v
  | none =>
    match dictGet fields "name".data with
    | some v => v
    | none => Json.str "attachment".data

/-- One iteration of the attachment loop: a dict with truthy `content`
yields the decoded text line or the binary placeholder (the bare `except`
catches every decode error, including the `TypeError` of decoding a
non-string), a falsy or absent `content` yields the bare marker, and a
non-dict entry is skipped.  `b64decode` abstracts
`base64.b64decode(...).decode("utf-8", errors="ignore")`; `none` models a
raise. -/
def attachmentText (b64decode : Json → Option (List Char)) (att : Json) :
    Option (List Char) :=
  match att with
  | Json.obj fields =>
    let name := attachmentName fields
    let content := (dictGet fields "content".data).getD (Json.str [])
    if pyTruthy content then
      match b64decode content with
      | some decoded =>
        some ("[Attachment: ".data ++ pyStr name ++ "]".data ++ '\n' :: decoded)
      | none => some ("[Attachment: ".data ++ pyStr name ++ "] (binary, not decoded)".data)
    else
      some ("[Attachment: ".data ++ pyStr name ++ "]".data)
  | _ => none

/-- `ExtractContentNodeHandler.execute`'s `output` dict, built from the
resolved node data.  The handler is pure besides the abstracted base64
decoding. -/
def extract_content (b64decode : Json → Option (List Char))
    (data : List (List Char × Json)) : Json :=
  let subject := pyStrGetD data "subject".data
  let body := pyStrGetD data "body".data
  let attachments := (dictGet data "attachments".data).getD (Json.arr [])
  let clean_body := cleanBody body
  let attachment_texts :=
    match attachments with
    | Json.arr atts => atts.filterMap (attachmentText b64decode)
    | _ => []
  let combined :=
    "Subject: ".data ++ subject ++ "\n\nBody:\n".data ++ clean_body
  let combined :=
    if attachment_texts.isEmpty then combined
    else combined ++ "\n\nAttachments:\n".data ++ joinSep "\n\n".data attachment_texts
  Json.obj [
    ("subject".data, Json.str subject),
    ("clean_body".data, Json.str clean_body),
    ("attachment_count".data, Json.num (match attachments with
      | Json.arr atts => (atts.length : Int)
      | _ => 0)),
    ("attachment_texts".data, Json.arr (attachment_texts.map Json.str)),
    ("combined_text".data, Json.str combined)]

/-!  ### `app/engine/node_handlers.py` — GoogleSheetsNodeHandler rows  -/

/-- `[str(v) for v in value]`: Python iteration with `str` applied to each
element; iterating a list yields its elements, a string its characters, a
dict its keys; anything else raises `TypeError`. -/
def pyIterStr : Json → Except PyExc (List (List Char))
  | Json.arr xs => Except.ok (xs.map pyStr)
  | Json.str s => Except.ok (s.map (fun c => [c]))
  | Json.obj fields => Except.ok (fields.map (fun kv => kv.1))
  | _ => Except.error PyExc.typeError

/-- Row construction of `GoogleSheetsNodeHandler.execute` (the part between
the `spreadsheet_id` check and the auth check): take `row_values` (default
`[]`); if it is a string, parse it with `json.loads`, falling back to the
single-element list holding the string; if the result is truthy, stringify
each element, otherwise assemble the row from the seven `col_*` fields in
fixed order.  `json_loads` abstracts `json.loads`; `none` models a parse
error.  `colRow` is the seven-column fallback row. -/
def colRow (data : List (List Char × Json)) : List (List Char) :=
  [pyStrGetD data "col_subject".data,
   pyStrGetD data "col_sender".data,
   pyStrGetD data "col_summary".data,
   pyStrGetD data "col_category".data,
   pyStrGetD data "col_sentiment".data,
   pyStrGetD data "col_action_items".data,
   pyStrGetD data "col_received_at".data]

/-- The `row_values` branch logic of `GoogleSheetsNodeHandler.execute`; see
the comment on `colRow`. -/
def googleSheetsRow (json_loads : List Char → Option Json)
    (data : List (List Char × Json)) : Except PyExc (List (List Char)) :=
  let row_template := (dictGet data "row_values".data).getD (Json.arr [])
  let row_template :=
    match row_template with
    | Json.str s =>
      match json_loads s with
      | some v => v
      | none => Json.arr [Json.str s]
    | v => v
  if pyTruthy row_template then pyIterStr row_template
  else Except.ok (colRow data)

/-!  ### `app/engine/executor.py`  -/

/-- A workflow node: persistent id (a uuid in the source, modelled as a
natural number whose decimal form plays the role of `str(node.id)`), the
author-assigned `node_key` (a non-nullable string defaulting to `""` in the
ORM model), the type discriminator and the static data. -/
structure WorkflowNode where
  id : Nat
  node_key : List Char
  type : List Char
  data : Json

/-- A workflow edge between node keys. -/
structure WorkflowEdge where
  source : List Char
  target : List Char

/-- `node.node_key or str(node.id)`: Python `or` falls through on the
falsy empty string. -/
def nodeMapKey (n : WorkflowNode) : List Char :=
  if n.node_key.isEmpty then natToStr n.id else n.node_key

/-- Generic dict lookup on an association list (first binding wins). -/
def mapGet {α : Type} (m : List (List Char × α)) (k : List Char) : Option α :=
  match m with
  | [] => none
  | (k2, v) :: rest => if k2 = k then some v else mapGet rest k

/-- `d[k] = v` on a Python dict: overwriting keeps the key's original
position, a new key is appended. -/
def dictInsert {α : Type} (m : List (List Char × α)) (k : List Char) (v : α) :
    List (List Char × α) :=
  match m with
  | [] => [(k, v)]
  | (k2, v2) :: rest => if k2 = k then (k2, v) :: rest else (k2, v2) :: dictInsert rest k v

/-- `nodes_map = \x7b(n.node_key or str(n.id)): n for n in workflow.nodes\x7d`. -/
def buildNodesMap (nodes : List WorkflowNode) : List (List Char × WorkflowNode) :=
  nodes.foldl (fun m n => dictInsert m (nodeMapKey n) n) []

/-- The `in_degree` table after the edge loop (`defaultdict(int)`: keys
never incremented read as 0, which also covers the explicit zero-fill loop
for edge-less nodes). -/
def initInDegree (edges : List WorkflowEdge) (k : List Char) : Int :=
  ((edges.filter (fun e => e.target = k)).length : Int)

/-- The `adjacency` table: targets of `k`'s outgoing edges in edge order
(`defaultdict(list)` with `append`). -/
def adjacencyOf (edges : List WorkflowEdge) (k : List Char) : List (List Char) :=
  (edges.filter (fun e => e.source = k)).map (fun e => e.target)

/-- Inner loop of Kahn's algorithm: decrement each neighbour's in-degree in
adjacency order, enqueueing those that reach zero. -/
def relaxNeighbors (indeg : List Char → Int) (queue : List (List Char)) :
    List (List Char) → (List Char → Int) × List (List Char)
  | [] => (indeg, queue)
  | n :: rest =>
    let d := indeg n - 1
    let indeg2 : List Char → Int := fun k => if k = n then d else indeg k
    let queue2 := if d = 0 then queue ++ [n] else queue
    relaxNeighbors indeg2 queue2 rest

/-- The drain loop of Kahn's algorithm.  `fuel` bounds the number of pops;
each pop removes one queue entry and entries are enqueued at most once per
key (an in-degree strictly decreases, so it reaches zero at most once), so
`|setOrder| + |edges| + 1` fuel never runs out on the inputs
`topologicalSort` supplies. -/
def kahnLoop (adj : List Char → List (List Char)) :
    Nat → List (List Char) → (List Char → Int) → List (List Char)
  | 0, _, _ => []
  | _ + 1, [], _ => []
  | fuel + 1, current :: queue2, indeg =>
    let step := relaxNeighbors indeg queue2 (adj current)
    current :: kahnLoop adj fuel step.2 step.1

/-- `WorkflowExecutor._topological_sort`.  `setOrder` is the iteration
order of the Python set `all_node_ids = set(nodes_map.keys())`, which is
implementation-defined (hash-based and, for strings, randomized across
processes); callers pass some permutation of the key set. -/
def topologicalSort (setOrder : List (List Char)) (edges : List WorkflowEdge) :
    List (List Char) :=
  let indeg := initInDegree edges
  let queue := setOrder.filter (fun k => indeg k = 0)
  kahnLoop (adjacencyOf edges) (setOrder.length + edges.length + 1) queue indeg

/-- The fields of a persisted `NodeRun` the claims speak about (timestamps
and elapsed milliseconds are wall-clock side channels, not modelled).
Optional fields start as Python `None`/unset. -/
structure NodeRun where
  node_id : List Char
  node_key : Option (List Char)
  status : List Char
  input_data : Option Json
  output_data : Option Json
  token_usage : Option Json
  error : Option (List Char)

/-- Abstract handler call for `_execute_node`'s try block after the
interpolation: given the node, its resolved data and the context, either
the `(output, token_usage)` pair extracted from the handler's result dict,
or the diagnostic string of whatever was raised (unknown node type from
`get_node_handler`, a handler exception, or a bad result shape). -/
def HandlerModel : Type :=
  WorkflowNode → Json → Json → Except (List Char) (Json × Option Json)

/-- `WorkflowExecutor._execute_node`: create the NodeRun as `running`,
interpolate `node.data or \x7b\x7d`, record it as `input_data`, run the
handler; on success write the output into the context under the node's map
key, update `_last_output`, and set `node_key`/`output_data`/`token_usage`/
`status=completed`; on any raise set `status=failed` and the error string,
leaving `node_key` unset and the context untouched.
`resolvedData` is `interpolate(node.data or \x7b\x7d, self.context)`. -/
def resolvedData (node : WorkflowNode) (ctx : List (List Char × Json)) : Json :=
  interpolate (if pyTruthy node.data then node.data else Json.obj []) (Json.obj ctx)

def executeNode (handler : HandlerModel) (ctx : List (List Char × Json))
    (node : WorkflowNode) : NodeRun × List (List Char × Json) :=
  let resolved := resolvedData node ctx
  match handler node resolved (Json.obj ctx) with
  | Except.ok (output, token) =>
    let key := nodeMapKey node
    let ctx2 := dictInsert ctx key (Json.obj [("output".data, output)])
    let ctx3 := dictInsert ctx2 "_last_output".data output
    (⟨natToStr node.id, some key, "completed".data, some resolved, some output, token, none⟩,
      ctx3)
  | Except.error err =>
    (⟨natToStr node.id, none, "failed".data, some resolved, none, none, some err⟩, ctx)

/-- The node loop of `WorkflowExecutor.execute`: run the sorted ids in
order, skipping ids with no node (`continue`), stopping at the first failed
NodeRun with the run-level error `"Node \x7bnode_id\x7d failed: \x7berror\x7d"`. -/
def runNodes (handler : HandlerModel) (nodesMap : List (List Char × WorkflowNode)) :
    List (List Char) → List (List Char × Json) →
    List NodeRun × Option (List Char) × List (List Char × Json)
  | [], ctx => ([], none, ctx)
  | nid :: rest, ctx =>
    match mapGet nodesMap nid with
    | none => runNodes handler nodesMap rest ctx
    | some node =>
      let step := executeNode handler ctx node
      if step.1.status = "failed".data then
        ([step.1],
          some ("Node ".data ++ nid ++ " failed: ".data ++ step.1.error.getD "None".data),
          step.2)
      else
        let tail := runNodes handler nodesMap rest step.2
        (step.1 :: tail.1, tail.2.1, tail.2.2)

/-- The run-level outcome of `WorkflowExecutor.execute`. -/
structure WorkflowRunResult where
  status : List Char
  error : Option (List Char)
  output_payload : Option Json
  node_runs : List NodeRun

/-- The initial context `WorkflowExecutor.execute` builds: the trigger
payload and kind, the workflow variables (`workflow.variables or \x7b\x7d`) and
id, and an empty `env`. -/
def initialContext (input_payload : Json) (trigger_type : List Char)
    (vars : Json) (workflow_id : List Char) : List (List Char × Json) :=
  [("trigger".data, Json.obj [("body".data, input_payload),
      ("type".data, Json.str trigger_type)]),
   ("workflow".data, Json.obj [
      ("variables".data, if pyTruthy vars then vars else Json.obj []),
      ("id".data, Json.str workflow_id)]),
   ("env".data, Json.obj [])]

/-- `WorkflowExecutor.execute`: build the initial context, key the nodes by
`node_key or str(id)`, topologically sort, run the loop; a node failure
makes the run `failed` with the node's error message, otherwise the run is
`completed` with `context.get("_last_output", \x7b\x7d)` as output payload. -/
def executeRun (handler : HandlerModel) (setOrder : List (List Char))
    (nodes : List WorkflowNode) (edges : List WorkflowEdge)
    (input_payload : Json) (trigger_type : List Char)
    (vars : Json) (workflow_id : List Char) : WorkflowRunResult :=
  let ctx0 := initialContext input_payload trigger_type vars workflow_id
  let nodesMap := buildNodesMap nodes
  let sorted := topologicalSort setOrder edges
  let result := runNodes handler nodesMap sorted ctx0
  match result.2.1 with
  | some e => ⟨"failed".data, some e, none, result.1⟩
  | none =>
    ⟨"completed".data, none,
      some ((mapGet result.2.2 "_last_output".data).getD (Json.obj [])), result.1⟩

/-!  ### `app/services/gmail_poller.py` and `app/services/gmail_service.py`

Datetimes are modelled as integer Unix seconds, so
`int(since_datetime.timestamp())` is the identity on the model.  The Gmail
API is abstracted by a `fetch` parameter from requests to message lists,
with `none` modelling a raise during fetching. -/

/-- A Gmail list request as issued by `GmailService`: the search query and
the `maxResults` cap. -/
structure FetchRequest where
  query : List Char
  maxResults : Nat

/-- The request of `GmailService.get_unread_messages(max_results=10)` as
called by the poller: default query `is:unread`. -/
def unreadRequest : FetchRequest := ⟨"is:unread".data, 10⟩

/-- The request of `GmailService.get_messages_since(last_check,
max_results=50)`: query `after:` followed by the Unix timestamp. -/
def sinceRequest (ts : Int) : FetchRequest := ⟨"after:".data ++ intToStr ts, 50⟩

/-- Poller state: the in-memory `last_check` map keyed by
`str(integration.id)`, initialised empty in `GmailPoller.__init__`. -/
structure PollerState where
  last_check : List (List Char × Int)

/-- The poller's state at process start. -/
def initialPollerState : PollerState := ⟨[]⟩

/-- The fetch window `_poll_integration` chooses: the time-window path when
a `last_check` entry exists for the integration, the unread-only path
otherwise. -/
def pollRequest (st : PollerState) (iid : List Char) : FetchRequest :=
  match mapGet st.last_check iid with
  | some t => sinceRequest t
  | none => unreadRequest

/-- Observable events of one `_poll_integration` call, in program order. -/
inductive PollEvent where
  | fetched (req : FetchRequest)
  | updatedLastCheck (iid : List Char) (now : Int)
  | processed (messages : List Json) (ok : Bool)

/-- One `_poll_integration` call: fetch with the chosen window, then set
`last_check[iid] = now`, then — only when messages came back — process them
via `_trigger_workflows` (whose failure, `ok = false`, propagates only
after the update).  A fetch raise (`fetch req = none`) propagates before
the update, leaving the state unchanged. -/
def pollIntegration (st : PollerState) (iid : List Char) (now : Int)
    (fetch : FetchRequest → Option (List Json)) (processOk : Bool) :
    PollerState × List PollEvent :=
  let req := pollRequest st iid
  match fetch req with
  | none => (st, [PollEvent.fetched req])
  | some msgs =>
    let st2 : PollerState := ⟨dictInsert st.last_check iid now⟩
    if msgs.isEmpty then
      (st2, [PollEvent.fetched req, PollEvent.updatedLastCheck iid now])
    else
      (st2, [PollEvent.fetched req, PollEvent.updatedLastCheck iid now,
        PollEvent.processed msgs processOk])

/-!  ## Concrete fixtures used by the claim theorems  -/

/-- No two adjacent whitespace characters — the shape a collapsed string
has. -/
def noWsPair (a b : Char) : Prop := ¬ (isPySpace a = true ∧ isPySpace b = true)

/-- Two-node cyclic workflow: nodes `A`, `B` with edges both ways. -/
def cycleNodes : List WorkflowNode :=
  [⟨1, "A".data, "response".data, Json.obj []⟩,
   ⟨2, "B".data, "response".data, Json.obj []⟩]

/-- The two edges of the cycle. -/
def cycleEdges : List WorkflowEdge :=
  [⟨"A".data, "B".data⟩, ⟨"B".data, "A".data⟩]

/-- A set-iteration order of the cycle's key set. -/
def cycleOrder : List (List Char) := ["A".data, "B".data]

/-- Context fixture: `xs` holds the two-element list `[1, 2]`. -/
def c5ctx : Json := Json.obj [("xs".data, Json.arr [Json.num 1, Json.num 2])]

/-- Context fixture: `p` holds a mapping. -/
def c3ctx : Json := Json.obj [("p".data, Json.obj [("a".data, Json.num 1)])]

/-- Input fixture: subject `Hi`, an HTML body, one attachment dict. -/
def c7data : List (List Char × Json) :=
  [("subject".data, Json.str "Hi".data),
   ("body".data, Json.str "<p>Hello</p>".data),
   ("attachments".data, Json.arr [Json.obj [("filename".data, Json.str "f.txt".data)]])]

/-- Input fixture: `row_values` is the empty list; all seven `col_*`
fields are set. -/
def c8data : List (List Char × Json) :=
  [("row_values".data, Json.arr []),
   ("col_subject".data, Json.str "s1".data),
   ("col_sender".data, Json.str "s2".data),
   ("col_summary".data, Json.str "s3".data),
   ("col_category".data, Json.str "s4".data),
   ("col_sentiment".data, Json.str "s5".data),
   ("col_action_items".data, Json.str "s6".data),
   ("col_received_at".data, Json.str "s7".data)]

/-- One-node fixture whose handler always raises `boom`. -/
def c2node : WorkflowNode := ⟨1, "S".data, "summarize".data, Json.obj []⟩

/-- A handler model that always raises. -/
def c2handler : HandlerModel := fun _ _ _ => Except.error "boom".data

/-- The failed NodeRun the fixture produces. -/
def c2nr : NodeRun :=
  ⟨"1".data, none, "failed".data, some (Json.obj []), none, none, some "boom".data⟩

/-- A handler model that always succeeds with an empty output. -/
def c10okHandler : HandlerModel := fun _ _ _ => Except.ok (Json.obj [], none)

/-!  ## Shared lemmas about the embedded dictionaries  -/

/-- Looking up the key just written returns the written value. -/
theorem mapGet_dictInsert_self {α : Type} (m : List (List Char × α)) (k : List Char) (v : α) :
    mapGet (dictInsert m k v) k = some v := by
  induction m with
  | nil => simp [dictInsert, mapGet]
  | cons kv rest ih =>
    obtain ⟨k2, v2⟩ := kv
    by_cases h : k2 = k
    · simp [dictInsert, mapGet, h]
    · simp [dictInsert, mapGet, h, ih]

/-- Unfolding equation: a token match at the head of the scan. -/
theorem substTokens_token (f : List Char → Json) (rest body rest2 : List Char)
    (h : bodyScan [] rest = some (body, rest2)) :
    substTokens f ('\x7b' :: '\x7b' :: rest) = strFormOf (f body) ++ substTokens f rest2 := by
  rw [substTokens.eq_def]
  split
  · rename_i r heq
    rw [List.cons.injEq, List.cons.injEq] at heq
    obtain ⟨-, -, hr⟩ := heq
    subst hr
    split
    · rename_i b2 r2 heq2
      rw [h, Option.some.injEq, Prod.mk.injEq] at heq2
      rw [← heq2.1, ← heq2.2]
    · rename_i heq2
      rw [h] at heq2
      exact absurd heq2 (by simp)
  · rename_i c2 r2 hno heq
    rw [List.cons.injEq] at heq
    exact (hno rest heq.1.symm heq.2.symm).elim
  · rename_i heq
    exact absurd heq (by simp)

/-- Unfolding equation: opening braces with no token body after them. -/
theorem substTokens_noBody (f : List Char → Json) (rest : List Char)
    (h : bodyScan [] rest = none) :
    substTokens f ('\x7b' :: '\x7b' :: rest) = '\x7b' :: substTokens f ('\x7b' :: rest) := by
  rw [substTokens.eq_def]
  split
  · rename_i r heq
    rw [List.cons.injEq, List.cons.injEq] at heq
    obtain ⟨-, -, hr⟩ := heq
    subst hr
    split
    · rename_i b2 r2 heq2
      rw [h] at heq2
      exact absurd heq2 (by simp)
    · rfl
  · rename_i c2 r2 hno heq
    rw [List.cons.injEq] at heq
    exact (hno rest heq.1.symm heq.2.symm).elim
  · rename_i heq
    exact absurd heq (by simp)

/-- Unfolding equation: a head character that starts no token is kept. -/
theorem substTokens_cons (f : List Char → Json) (c : Char) (rest : List Char)
    (h : ∀ r : List Char, c = '\x7b' → rest = '\x7b' :: r → False) :
    substTokens f (c :: rest) = c :: substTokens f rest := by
  rw [substTokens.eq_def]
  split
  · rename_i r heq
    rw [List.cons.injEq] at heq
    exact (h r heq.1 heq.2).elim
  · rename_i c2 r2 hno heq
    rw [List.cons.injEq] at heq
    rw [heq.1, heq.2]
  · rename_i heq
    exact absurd heq (by simp)

/-- `substTokens` leaves the empty string alone. -/
theorem substTokens_nil (f : List Char → Json) : substTokens f [] = [] := by
  rw [substTokens.eq_def]

/-- Unfolding equation for `substTokensE`: token match at the head. -/
theorem substTokensE_token (f : List Char → Except PyExc Json) (rest body rest2 : List Char)
    (h : bodyScan [] rest = some (body, rest2)) :
    substTokensE f ('\x7b' :: '\x7b' :: rest)
      = do
          let v ← f body
          let tail ← substTokensE f rest2
          return strFormOf v ++ tail := by
  rw [substTokensE.eq_def]
  split
  · rename_i r heq
    rw [List.cons.injEq, List.cons.injEq] at heq
    obtain ⟨-, -, hr⟩ := heq
    subst hr
    split
    · rename_i b2 r2 heq2
      rw [h, Option.some.injEq, Prod.mk.injEq] at heq2
      rw [← heq2.1, ← heq2.2]
    · rename_i heq2
      rw [h] at heq2
      exact absurd heq2 (by simp)
  · rename_i c2 r2 hno heq
    rw [List.cons.injEq] at heq
    exact (hno rest heq.1.symm heq.2.symm).elim
  · rename_i heq
    exact absurd heq (by simp)

/-- Unfolding equation for `substTokensE`: no token body after the braces. -/
theorem substTokensE_noBody (f : List Char → Except PyExc Json) (rest : List Char)
    (h : bodyScan [] rest = none) :
    substTokensE f ('\x7b' :: '\x7b' :: rest)
      = do
          let tail ← substTokensE f ('\x7b' :: rest)
          return '\x7b' :: tail := by
  rw [substTokensE.eq_def]
  split
  · rename_i r heq
    rw [List.cons.injEq, List.cons.injEq] at heq
    obtain ⟨-, -, hr⟩ := heq
    subst hr
    split
    · rename_i b2 r2 heq2
      rw [h] at heq2
      exact absurd heq2 (by simp)
    · rfl
  · rename_i c2 r2 hno heq
    rw [List.cons.injEq] at heq
    exact (hno rest heq.1.symm heq.2.symm).elim
  · rename_i heq
    exact absurd heq (by simp)

/-- Unfolding equation for `substTokensE`: non-token head character. -/
theorem substTokensE_cons (f : List Char → Except PyExc Json) (c : Char) (rest : List Char)
    (h : ∀ r : List Char, c = '\x7b' → rest = '\x7b' :: r → False) :
    substTokensE f (c :: rest)
      = do
          let tail ← substTokensE f rest
          return c :: tail := by
  rw [substTokensE.eq_def]
  split
  · rename_i r heq
    rw [List.cons.injEq] at heq
    exact (h r heq.1 heq.2).elim
  · rename_i c2 r2 hno heq
    rw [List.cons.injEq] at heq
    rw [heq.1, heq.2]
  · rename_i heq
    exact absurd heq (by simp)

/-- The instrumented resolver never lets an exception escape. -/
theorem resolvePartsE_eq (ps : List (List Char)) (cur : Json) :
    resolvePartsE ps cur = Except.ok (resolveParts ps cur) := by
  induction ps generalizing cur with
  | nil => rfl
  | cons part rest ih =>
    cases cur with
    | obj fields =>
      rw [resolveParts, resolvePartsE]
      cases dictGet fields part with
      | none => rfl
      | some v =>
        by_cases h : isNull v
        · simp [h]
        · simp [h, ih]
    | arr xs =>
      rw [resolveParts, resolvePartsE]
      cases hi : pyInt part with
      | none => simp [pyIntE, hi]
      | some i =>
        cases hx : pyIndex xs i with
        | none => simp [pyIntE, pyIndexE, hi, hx]
        | some v =>
          by_cases h : isNull v
          · simp [pyIntE, pyIndexE, hi, hx, h]
          · simp [pyIntE, pyIndexE, hi, hx, h, ih]
    | null => rfl
    | bool b => rfl
    | num n => rfl
    | str s => rfl

/-- The instrumented path resolution never lets an exception escape. -/
theorem resolve_expressionE_eq (e : List Char) (context : Json) :
    resolve_expressionE e context = Except.ok (resolve_expression e context) :=
  resolvePartsE_eq _ _

/-- If the replacer never raises, neither does the substitution scan. -/
theorem substTokensE_eq (fE : List Char → Except PyExc Json) (fP : List Char → Json)
    (hf : ∀ b, fE b = Except.ok (fP b)) :
    ∀ s, substTokensE fE s = Except.ok (substTokens fP s) := by
  refine substTokens.induct fP
    (fun s => substTokensE fE s = Except.ok (substTokens fP s)) ?_ ?_ ?_ ?_
  · intro rest body rest2 h ih
    rw [substTokensE_token fE rest body rest2 h, substTokens_token fP rest body rest2 h,
      hf, ih]
    rfl
  · intro rest h ih
    rw [substTokensE_noBody fE rest h, substTokens_noBody fP rest h, ih]
    rfl
  · intro c rest hno ih
    rw [substTokensE_cons fE c rest hno, substTokens_cons fP c rest hno, ih]
    rfl
  · show substTokensE fE [] = Except.ok (substTokens fP [])
    rw [substTokensE.eq_def, substTokens_nil]

/-- The instrumented interpolation never lets an exception escape. -/
theorem interpolateE_eq (t context : Json) :
    interpolateE t context = Except.ok (interpolate t context) := by
  refine interpolate.induct
    (fun t context => interpolateE t context = Except.ok (interpolate t context))
    (fun xs context => interpolateElemsE xs context = Except.ok (interpolateElems xs context))
    (fun fields context =>
      interpolateFieldsE fields context = Except.ok (interpolateFields fields context))
    ?_ ?_ ?_ ?_ ?_ ?_ ?_ ?_ ?_ t context
  · intro s context body h
    simp only [interpolateE, interpolate, h]
    exact resolve_expressionE_eq body context
  · intro s context h
    simp only [interpolateE, interpolate, h]
    rw [substTokensE_eq (fun e => resolve_expressionE e context)
      (fun e => resolve_expression e context) (fun b => resolve_expressionE_eq b context) s]
  · intro fields context ih
    simp only [interpolateE, interpolate, ih]
  · intro xs context ih
    simp only [interpolateE, interpolate, ih]
  · intro t context hs ho ha
    cases t with
    | null => rfl
    | bool b => rfl
    | num n => rfl
    | str s => exact (hs s rfl).elim
    | obj fields => exact (ho fields rfl).elim
    | arr xs => exact (ha xs rfl).elim
  · intro context
    rfl
  · intro x rest context ih1 ih2
    simp only [interpolateElemsE, interpolateElems, ih1, ih2]
    rfl
  · intro context
    rfl
  · intro k v rest context ih1 ih2
    simp only [interpolateFieldsE, interpolateFields, ih1, ih2]
    rfl

/-!  ## Claim theorems  -/

/-- C1: on a graph that is one two-node cycle the topological sort does
yield fewer entries than the node count, but `execute` has no length check:
for every handler and input the run finishes with `status = "completed"`,
a null error (no mention of a cycle), and zero NodeRuns, instead of failing
with `CycleDetected` as the claim states. -/
theorem C1_cycle_run_completes (handler : HandlerModel) (inp : Json) (tt : List Char) :
    (topologicalSort cycleOrder cycleEdges).length < (buildNodesMap cycleNodes).length ∧
    (executeRun handler cycleOrder cycleNodes cycleEdges inp tt Json.null "w1".data).status
      = "completed".data ∧
    (executeRun handler cycleOrder cycleNodes cycleEdges inp tt Json.null "w1".data).error
      = none ∧
    (executeRun handler cycleOrder cycleNodes cycleEdges inp tt Json.null "w1".data).node_runs
      = [] :=
  ⟨by decide, rfl, rfl, rfl⟩

/-- C4: the initial queue of the topological sort is seeded by iterating
the Python set `all_node_ids`, so the output follows the set's iteration
order, not FIFO node-insertion order: the same edge-less two-node graph
sorts as `[A, B]` under one iteration order of the key set and `[B, A]`
under the other, so the output is not a function of the graph alone. -/
theorem C4_tie_break_follows_set_order :
    topologicalSort ["A".data, "B".data] [] = ["A".data, "B".data] ∧
    topologicalSort ["B".data, "A".data] [] = ["B".data, "A".data] ∧
    (["A".data, "B".data] : List (List Char)) ≠ ["B".data, "A".data] ∧
    List.Perm ["B".data, "A".data] ["A".data, "B".data] :=
  ⟨rfl, rfl, by decide, by decide⟩

/-- C5 counterexample: the segment `-1` is not a non-negative integer —
Python's `int` parses it as the negative integer `-1` — yet resolution does
not yield absent: the negative index addresses the last element, so
`xs.-1` resolves to `2`. -/
theorem C5_counterexample :
    pyInt "-1".data = some (-1) ∧ ((-1 : Int) < 0) ∧
    resolve_expression "xs.-1".data c5ctx = Json.num 2 ∧
    Json.num 2 ≠ Json.null := by
  refine ⟨by decide, by decide, rfl, ?_⟩
  intro h
  exact Json.noConfusion h

/-- C5 amended: a sequence segment is parsed as a Python integer (optional
sign accepted); a non-negative index yields the element at that offset or
absent when out of range, a negative index addresses from the end of the
sequence as in Python, out-of-range and unparseable segments yield absent,
and a null step short-circuits the remaining path. -/
theorem C5_sequence_step (part : List Char) (rest : List (List Char)) (xs : List Json) :
    (pyInt part = none → resolveParts (part :: rest) (Json.arr xs) = Json.null) ∧
    (∀ i : Int, pyInt part = some i → 0 ≤ i →
      resolveParts (part :: rest) (Json.arr xs)
        = match xs[i.toNat]? with
          | none => Json.null
          | some v => if isNull v then Json.null else resolveParts rest v) ∧
    (∀ i : Int, pyInt part = some i → i < 0 → -i ≤ (xs.length : Int) →
      resolveParts (part :: rest) (Json.arr xs)
        = match xs[((xs.length : Int) + i).toNat]? with
          | none => Json.null
          | some v => if isNull v then Json.null else resolveParts rest v) ∧
    (∀ i : Int, pyInt part = some i → i < 0 → (xs.length : Int) < -i →
      resolveParts (part :: rest) (Json.arr xs) = Json.null) := by
  refine ⟨?_, ?_, ?_, ?_⟩
  · intro h
    simp [resolveParts, h]
  · intro i h hi
    simp only [resolveParts, h, pyIndex, if_pos hi]
  · intro i h hneg hin
    have hidx : xs.length - (-i).toNat = ((xs.length : Int) + i).toNat := by omega
    simp only [resolveParts, h, pyIndex, if_neg (by omega : ¬ (0 : Int) ≤ i), if_pos hin, hidx]
  · intro i h hneg hout
    simp only [resolveParts, h, pyIndex, if_neg (by omega : ¬ (0 : Int) ≤ i),
      if_neg (by omega : ¬ -i ≤ (xs.length : Int))]

/-- C5 witness: the amended statement evaluated at the segment `-1` on the
list `[1, 2]` gives its last element. -/
theorem C5_sequence_step_witness :
    resolveParts ["-1".data] (Json.arr [Json.num 1, Json.num 2]) = Json.num 2 := by
  have h := (C5_sequence_step "-1".data [] [Json.num 1, Json.num 2]).2.2.1 (-1)
    (by decide) (by decide) (by decide)
  exact h.trans (by rfl)

/-- C9: the first poll for an integration (no `last_check` entry, the
process-start state) requests up to 10 unread messages; a poll with an
entry `t` requests up to 50 messages with query `after:t`; on a successful
fetch the `last_check` entry is set to `now` in the event trace before any
processing event and independently of whether processing succeeds, so the
next poll's window is `after:now`. -/
theorem C9_poller_windows :
    (∀ iid, pollRequest initialPollerState iid = unreadRequest) ∧
    unreadRequest.query = "is:unread".data ∧ unreadRequest.maxResults = 10 ∧
    (∀ st iid t, mapGet st.last_check iid = some t →
      pollRequest st iid = sinceRequest t) ∧
    (∀ t : Int, (sinceRequest t).query = "after:".data ++ intToStr t ∧
      (sinceRequest t).maxResults = 50) ∧
    (∀ st iid now fetch processOk msgs, fetch (pollRequest st iid) = some msgs →
      mapGet (pollIntegration st iid now fetch processOk).1.last_check iid = some now ∧
      pollRequest (pollIntegration st iid now fetch processOk).1 iid = sinceRequest now ∧
      (pollIntegration st iid now fetch processOk).2
        = [PollEvent.fetched (pollRequest st iid), PollEvent.updatedLastCheck iid now]
          ++ (if msgs.isEmpty then [] else [PollEvent.processed msgs processOk])) := by
  refine ⟨fun iid => rfl, rfl, rfl, ?_, fun t => ⟨rfl, rfl⟩, ?_⟩
  · intro st iid t h
    simp [pollRequest, h]
  · intro st iid now fetch processOk msgs h
    have key : (pollIntegration st iid now fetch processOk).1
        = ⟨dictInsert st.last_check iid now⟩ := by
      simp only [pollIntegration, h]
      split <;> rfl
    refine ⟨?_, ?_, ?_⟩
    · rw [key]
      exact mapGet_dictInsert_self _ _ _
    · rw [key]
      simp [pollRequest, mapGet_dictInsert_self]
    · simp only [pollIntegration, h]
      split
      · rename_i hemp
        simp [hemp]
      · rename_i hemp
        simp [hemp]

/-- C9 witness: a concrete first poll at time 100 returning one message,
with failing processing, still advances the window to `after:100`. -/
theorem C9_poller_windows_witness :
    pollRequest initialPollerState "7".data = unreadRequest ∧
    (pollIntegration initialPollerState "7".data 100 (fun _ => some [Json.obj []])
      false).1.last_check = [("7".data, (100 : Int))] ∧
    pollRequest (pollIntegration initialPollerState "7".data 100
      (fun _ => some [Json.obj []]) false).1 "7".data = sinceRequest 100 := by
  refine ⟨(C9_poller_windows.1 "7".data), rfl, ?_⟩
  exact ((C9_poller_windows.2.2.2.2.2 initialPollerState "7".data 100
    (fun _ => some [Json.obj []]) false [Json.obj []] rfl).2.1)

/-- The full-match test accepts exactly the strings built as two opening
braces, a nonempty newline-free body, and two closing braces, and returns
that body. -/
theorem fullTokenBody_built (body : List Char) (h1 : body ≠ []) (h2 : ¬ '\n' ∈ body) :
    fullTokenBody ('\x7b' :: '\x7b' :: (body ++ ['\x7d', '\x7d'])) = some body := by
  have hlen : (body ++ ['\x7d', '\x7d']).length = body.length + 2 := by simp
  have htake : (body ++ ['\x7d', '\x7d']).take ((body ++ ['\x7d', '\x7d']).length - 2)
      = body := by
    rw [hlen]
    simpa using List.take_left body ['\x7d', '\x7d']
  have hdrop : (body ++ ['\x7d', '\x7d']).drop ((body ++ ['\x7d', '\x7d']).length - 2)
      = ['\x7d', '\x7d'] := by
    rw [hlen]
    simpa using List.drop_left body ['\x7d', '\x7d']
  have hpos : 1 ≤ body.length := List.length_pos.mpr h1
  rw [fullTokenBody]
  rw [if_pos]
  · rw [htake]
  · refine ⟨by rw [hlen]; omega, hdrop, ?_⟩
    rw [htake]
    exact h2

/-- C3: when the whole string is a single token — two opening braces, a
nonempty newline-free body, two closing braces — `interpolate` returns the
body's resolved value with its native type preserved (a mapping stays that
mapping, absent stays null); otherwise every token occurrence is replaced
by the string form of its resolved value with absent/null becoming the
empty string (`strFormOf`), the surrounding text kept: a matched token
contributes exactly `strFormOf` of its resolution, a non-token character is
emitted unchanged, and the empty string stays empty. -/
theorem C3_interpolate_string (context : Json) :
    (∀ body : List Char, body ≠ [] → ¬ '\n' ∈ body →
      interpolate (Json.str ('\x7b' :: '\x7b' :: (body ++ ['\x7d', '\x7d']))) context
        = resolve_expression body context) ∧
    (∀ s, fullTokenBody s = none →
      interpolate (Json.str s) context
        = Json.str (substTokens (fun e => resolve_expression e context) s)) ∧
    strFormOf Json.null = [] ∧
    (∀ v, v ≠ Json.null → strFormOf v = pyStr v) ∧
    (∀ (f : List Char → Json) rest body rest2, bodyScan [] rest = some (body, rest2) →
      substTokens f ('\x7b' :: '\x7b' :: rest)
        = strFormOf (f body) ++ substTokens f rest2) ∧
    (∀ (f : List Char → Json) c rest, (∀ r, c = '\x7b' → rest = '\x7b' :: r → False) →
      substTokens f (c :: rest) = c :: substTokens f rest) ∧
    (∀ f, substTokens f [] = []) := by
  refine ⟨?_, ?_, rfl, ?_, substTokens_token, substTokens_cons, substTokens_nil⟩
  · intro body h1 h2
    simp only [interpolate, fullTokenBody_built body h1 h2]
  · intro s h
    simp only [interpolate, h]
  · intro v hv
    cases v with
    | null => exact absurd rfl hv
    | bool b => rfl
    | num n => rfl
    | str s => rfl
    | arr xs => rfl
    | obj fields => rfl

/-- C3 witness: the single-token template over `p` returns the mapping
itself, type preserved. -/
theorem C3_interpolate_string_witness :
    interpolate (Json.str ('\x7b' :: '\x7b' :: ("p".data ++ ['\x7d', '\x7d']))) c3ctx
      = Json.obj [("a".data, Json.num 1)] := by
  have h := (C3_interpolate_string c3ctx).1 "p".data (by decide) (by decide)
  exact h.trans (by rfl)

/-- C6: interpolation and path resolution are total — the instrumented
versions, which propagate any Python exception the guarded operations can
raise, always return `ok` of the plain result, so no exception escapes
(the source's `except (ValueError, IndexError)` covers everything its try
block raises).  The no-mutation half of the claim is structural: the
embedding is purely functional and the source assigns only to locals,
never into `template` or `context`. -/
theorem C6_resolver_total :
    (∀ t context, interpolateE t context = Except.ok (interpolate t context)) ∧
    (∀ e context, resolve_expressionE e context = Except.ok (resolve_expression e context)) :=
  ⟨interpolateE_eq, resolve_expressionE_eq⟩

/-- Unfolding equation: a tag match after an opening bracket. -/
theorem stripTags_tag (rest rest2 : List Char) (h : tagEnd rest = some rest2) :
    stripTags ('<' :: rest) = ' ' :: stripTags rest2 := by
  rw [stripTags.eq_def]
  split
  · rename_i r heq
    rw [List.cons.injEq] at heq
    obtain ⟨-, hr⟩ := heq
    subst hr
    split
    · rename_i r2 heq2
      rw [h, Option.some.injEq] at heq2
      rw [← heq2]
    · rename_i heq2
      rw [h] at heq2
      exact absurd heq2 (by simp)
  · rename_i c2 r2 hno heq
    rw [List.cons.injEq] at heq
    exact (hno heq.1.symm).elim
  · rename_i heq
    exact absurd heq (by simp)

/-- Unfolding equation: an opening bracket with no tag after it is kept. -/
theorem stripTags_noTag (rest : List Char) (h : tagEnd rest = none) :
    stripTags ('<' :: rest) = '<' :: stripTags rest := by
  rw [stripTags.eq_def]
  split
  · rename_i r heq
    rw [List.cons.injEq] at heq
    obtain ⟨-, hr⟩ := heq
    subst hr
    split
    · rename_i r2 heq2
      rw [h] at heq2
      exact absurd heq2 (by simp)
    · rfl
  · rename_i c2 r2 hno heq
    rw [List.cons.injEq] at heq
    exact (hno heq.1.symm).elim
  · rename_i heq
    exact absurd heq (by simp)

/-- Unfolding equation: a non-bracket character is kept. -/
theorem stripTags_cons (c : Char) (rest : List Char) (h : ¬ c = '<') :
    stripTags (c :: rest) = c :: stripTags rest := by
  rw [stripTags.eq_def]
  split
  · rename_i r heq
    rw [List.cons.injEq] at heq
    exact (h heq.1).elim
  · rename_i c2 r2 hno heq
    rw [List.cons.injEq] at heq
    rw [heq.1, heq.2]
  · rename_i heq
    exact absurd heq (by simp)

/-- `stripTags` leaves the empty string alone. -/
theorem stripTags_nil : stripTags [] = [] := by
  rw [stripTags.eq_def]

/-- The head surviving a whitespace `dropWhile` is not whitespace. -/
theorem dropWhile_head_false (l : List Char) (c : Char) (rest : List Char)
    (h : l.dropWhile isPySpace = c :: rest) : isPySpace c = false := by
  induction l with
  | nil => simp [List.dropWhile] at h
  | cons a l2 ih =>
    rw [List.dropWhile_cons] at h
    split at h
    · exact ih h
    · rename_i ha
      rw [List.cons.injEq] at h
      cases hb : isPySpace a with
      | false => rw [← h.1]; exact hb
      | true => exact absurd hb ha

/-- `collapseWs` keeps a non-whitespace head. -/
theorem collapseWs_cons_not (c : Char) (rest : List Char) (h : isPySpace c = false) :
    collapseWs (c :: rest) = c :: collapseWs rest := by
  rw [collapseWs]
  rw [if_neg (by simp [h])]

/-- The collapsed string has no two adjacent whitespace characters. -/
theorem chain_collapseWs (l : List Char) : List.Chain' noWsPair (collapseWs l) := by
  induction l using collapseWs.induct with
  | case1 =>
    rw [show collapseWs [] = ([] : List Char) by rw [collapseWs]]
    exact List.chain'_nil
  | case2 c rest hws ih =>
    rw [collapseWs, if_pos hws]
    rw [List.chain'_cons']
    refine ⟨?_, ih⟩
    intro y hy
    cases hd : rest.dropWhile isPySpace with
    | nil => rw [hd] at hy; simp [collapseWs] at hy
    | cons c2 r2 =>
      have hc2 : isPySpace c2 = false := dropWhile_head_false rest c2 r2 hd
      rw [hd, collapseWs_cons_not c2 r2 hc2] at hy
      simp only [List.head?_cons, Option.mem_def, Option.some.injEq] at hy
      rw [← hy]
      intro hpair
      rw [hc2] at hpair
      exact Bool.false_ne_true hpair.2
  | case3 c rest hws ih =>
    rw [collapseWs, if_neg hws]
    rw [List.chain'_cons']
    refine ⟨?_, ih⟩
    intro y hy hpair
    rw [Bool.not_eq_true] at hws
    rw [hws] at hpair
    exact Bool.false_ne_true hpair.1

/-- `noWsPair` chains survive reversal (the relation is symmetric). -/
theorem chain_noWsPair_reverse (l : List Char) (h : List.Chain' noWsPair l) :
    List.Chain' noWsPair l.reverse := by
  rw [List.chain'_reverse]
  exact h.imp (fun a b hab => fun hp => hab ⟨hp.2, hp.1⟩)

/-- Stripping the ends preserves the no-adjacent-whitespace shape. -/
theorem chain_stripChars (l : List Char) (h : List.Chain' noWsPair l) :
    List.Chain' noWsPair (stripChars l) := by
  have h1 : List.Chain' noWsPair (l.dropWhile isPySpace) :=
    List.Chain'.suffix h (List.dropWhile_suffix _)
  have h2 := chain_noWsPair_reverse _ h1
  have h3 : List.Chain' noWsPair ((l.dropWhile isPySpace).reverse.dropWhile isPySpace) :=
    List.Chain'.suffix h2 (List.dropWhile_suffix _)
  exact chain_noWsPair_reverse _ h3

/-- `clean_body` never contains two adjacent whitespace characters. -/
theorem chain_cleanBody (body : List Char) : List.Chain' noWsPair (cleanBody body) :=
  chain_stripChars _ (chain_collapseWs _)

/-- C7: with `subject` and `body` strings and `attachments` a list in the
input, `extract_content` outputs `clean_body` equal to the body with
HTML-tag-like substrings stripped and whitespace collapsed (no two adjacent
whitespace characters survive), and `combined_text` equal to
`Subject: subject`, blank line, `Body:`, newline, `clean_body`, followed —
exactly when at least one attachment text exists — by a blank line,
`Attachments:`, newline, and the attachment texts joined by blank lines. -/
theorem C7_extract_content (b64decode : Json → Option (List Char))
    (data : List (List Char × Json)) (subject body : List Char) (atts : List Json)
    (hs : dictGet data "subject".data = some (Json.str subject))
    (hb : dictGet data "body".data = some (Json.str body))
    (ha : dictGet data "attachments".data = some (Json.arr atts)) :
    extract_content b64decode data
      = Json.obj [
        ("subject".data, Json.str subject),
        ("clean_body".data, Json.str (cleanBody body)),
        ("attachment_count".data, Json.num (atts.length : Int)),
        ("attachment_texts".data,
          Json.arr ((atts.filterMap (attachmentText b64decode)).map Json.str)),
        ("combined_text".data, Json.str (
          "Subject: ".data ++ subject ++ "\n\nBody:\n".data ++ cleanBody body
          ++ (if atts.filterMap (attachmentText b64decode) = [] then []
              else "\n\nAttachments:\n".data
                ++ joinSep "\n\n".data (atts.filterMap (attachmentText b64decode)))))] ∧
    List.Chain' noWsPair (cleanBody body) := by
  refine ⟨?_, chain_cleanBody body⟩
  simp only [extract_content, pyStrGetD, hs, hb, ha, pyStr, Option.getD_some,
    List.isEmpty_iff]
  rcases Decidable.em (List.filterMap (attachmentText b64decode) atts = []) with hnil | hnil
  · simp [hnil, List.append_assoc]
  · simp [hnil, List.append_assoc]

/-- C7 witness: the theorem evaluated on the fixture. -/
theorem C7_extract_content_witness :
    extract_content (fun _ => none) c7data
      = Json.obj [
        ("subject".data, Json.str "Hi".data),
        ("clean_body".data, Json.str "Hello".data),
        ("attachment_count".data, Json.num 1),
        ("attachment_texts".data, Json.arr [Json.str "[Attachment: f.txt]".data]),
        ("combined_text".data,
          Json.str "Subject: Hi\n\nBody:\nHello\n\nAttachments:\n[Attachment: f.txt]".data)] := by
  have h := C7_extract_content (fun _ => none) c7data "Hi".data "<p>Hello</p>".data
    [Json.obj [("filename".data, Json.str "f.txt".data)]] rfl rfl rfl
  have hc : cleanBody "<p>Hello</p>".data = "Hello".data := by
    simp +decide [cleanBody, stripTags_tag, stripTags_noTag, stripTags_cons, stripTags_nil,
      collapseWs, stripChars, tagEnd, tagEndGo, isPySpace, List.dropWhile]
  rw [h.1, hc]
  rfl

/-- C8 counterexample: `row_values` is a list (the empty one), so the
claim demands the row be that list stringified — the empty row — but the
code's truthiness test routes the empty list to the `col_*` fallback and
sends the seven column fields. -/
theorem C8_counterexample :
    dictGet c8data "row_values".data = some (Json.arr []) ∧
    googleSheetsRow (fun _ => none) c8data
      = Except.ok ["s1".data, "s2".data, "s3".data, "s4".data, "s5".data,
          "s6".data, "s7".data] ∧
    (["s1".data, "s2".data, "s3".data, "s4".data, "s5".data, "s6".data, "s7".data]
      ≠ ([] : List (List Char))) :=
  ⟨rfl, rfl, by decide⟩

/-- C8 amended: a non-empty `row_values` list is sent with each element
stringified; a string `row_values` is parsed as JSON with fallback to the
one-element list holding the string (which is then sent as a one-element
row), a parsed non-empty array being sent stringified; in all remaining
cases — `row_values` absent, the empty list, or a falsy parse result — the
row is assembled from the seven `col_*` fields in fixed order. -/
theorem C8_row_construction (json_loads : List Char → Option Json)
    (data : List (List Char × Json)) :
    (∀ x xs, dictGet data "row_values".data = some (Json.arr (x :: xs)) →
      googleSheetsRow json_loads data = Except.ok ((x :: xs).map pyStr)) ∧
    (dictGet data "row_values".data = none ∨
        dictGet data "row_values".data = some (Json.arr []) →
      googleSheetsRow json_loads data = Except.ok (colRow data)) ∧
    (∀ s x xs, dictGet data "row_values".data = some (Json.str s) →
      json_loads s = some (Json.arr (x :: xs)) →
      googleSheetsRow json_loads data = Except.ok ((x :: xs).map pyStr)) ∧
    (∀ s v, dictGet data "row_values".data = some (Json.str s) →
      json_loads s = some v → pyTruthy v = false →
      googleSheetsRow json_loads data = Except.ok (colRow data)) ∧
    (∀ s, dictGet data "row_values".data = some (Json.str s) →
      json_loads s = none →
      googleSheetsRow json_loads data = Except.ok [s]) := by
  refine ⟨?_, ?_, ?_, ?_, ?_⟩
  · intro x xs h
    simp [googleSheetsRow, h, pyTruthy, pyIterStr]
  · intro h
    rcases h with h | h <;> simp [googleSheetsRow, h, pyTruthy]
  · intro s x xs h hj
    simp [googleSheetsRow, h, hj, pyTruthy, pyIterStr]
  · intro s v h hj hfalsy
    cases v <;> simp_all [googleSheetsRow, pyTruthy, pyIterStr]
  · intro s h hj
    simp [googleSheetsRow, h, hj, pyTruthy, pyIterStr, pyStr]

/-- C8 witness: the amended statement evaluated on a two-element
`row_values` list and on the empty-list fixture. -/
theorem C8_row_construction_witness :
    googleSheetsRow (fun _ => none)
        [("row_values".data, Json.arr [Json.num 12, Json.str "x".data])]
      = Except.ok ["12".data, "x".data] ∧
    googleSheetsRow (fun _ => none) c8data
      = Except.ok ["s1".data, "s2".data, "s3".data, "s4".data, "s5".data,
          "s6".data, "s7".data] := by
  constructor
  · have h := (C8_row_construction (fun _ => none)
      [("row_values".data, Json.arr [Json.num 12, Json.str "x".data])]).1
      (Json.num 12) [Json.str "x".data] rfl
    rw [h]
    simp +decide [pyStr, pyRepr, intToStr, natToStr, digitChar]
  · have h := (C8_row_construction (fun _ => none) c8data).2.1 (Or.inr rfl)
    exact h.trans (by rfl)

/-- Canonical case analysis of `_execute_node`: success produces the
completed NodeRun carrying the node's map key; a raise produces the failed
NodeRun with no key and the error set. -/
theorem executeNode_spec (handler : HandlerModel) (ctx : List (List Char × Json))
    (node : WorkflowNode) :
    (∃ out tok,
      handler node (resolvedData node ctx) (Json.obj ctx) = Except.ok (out, tok) ∧
      (executeNode handler ctx node).1
        = ⟨natToStr node.id, some (nodeMapKey node), "completed".data,
           some (resolvedData node ctx), some out, tok, none⟩) ∨
    (∃ err,
      handler node (resolvedData node ctx) (Json.obj ctx) = Except.error err ∧
      (executeNode handler ctx node).1
        = ⟨natToStr node.id, none, "failed".data,
           some (resolvedData node ctx), none, none, some err⟩) := by
  cases hh : handler node (resolvedData node ctx) (Json.obj ctx) with
  | ok p =>
    obtain ⟨out, tok⟩ := p
    exact Or.inl ⟨out, tok, rfl, by simp [executeNode, hh]⟩
  | error err =>
    exact Or.inr ⟨err, rfl, by simp [executeNode, hh]⟩

/-- A successful `mapGet` exhibits a binding of the list. -/
theorem mapGet_mem {α : Type} (m : List (List Char × α)) (k : List Char) (v : α)
    (h : mapGet m k = some v) : (k, v) ∈ m := by
  induction m with
  | nil => simp [mapGet] at h
  | cons kv rest ih =>
    obtain ⟨k2, v2⟩ := kv
    rw [mapGet] at h
    split at h
    · rename_i heq
      obtain rfl := Option.some.inj h
      rw [heq]
      exact List.mem_cons_self _ _
    · exact List.mem_cons_of_mem _ (ih h)

/-- Every binding of `dictInsert m k v` is a binding of `m` or `(k, v)`. -/
theorem dictInsert_mem {α : Type} (m : List (List Char × α)) (k : List Char) (v : α)
    (x : List Char × α) (h : x ∈ dictInsert m k v) : x ∈ m ∨ x = (k, v) := by
  induction m with
  | nil =>
    rw [dictInsert] at h
    exact Or.inr (List.mem_singleton.mp h)
  | cons kv rest ih =>
    obtain ⟨k2, v2⟩ := kv
    rw [dictInsert] at h
    split at h
    · rename_i heq
      rcases List.mem_cons.mp h with h2 | h2
      · exact Or.inr (by rw [h2, heq])
      · exact Or.inl (List.mem_cons_of_mem _ h2)
    · rcases List.mem_cons.mp h with h2 | h2
      · exact Or.inl (by rw [h2]; exact List.mem_cons_self _ _)
      · rcases ih h2 with h3 | h3
        · exact Or.inl (List.mem_cons_of_mem _ h3)
        · exact Or.inr h3

/-- Invariant of the `nodes_map` fold: every binding's key is its node's
map key. -/
theorem buildNodesMap_aux (nodes : List WorkflowNode) :
    ∀ (m : List (List Char × WorkflowNode)),
      (∀ x ∈ m, x.1 = nodeMapKey x.2) →
      ∀ x ∈ nodes.foldl (fun m n => dictInsert m (nodeMapKey n) n) m,
        x.1 = nodeMapKey x.2 := by
  induction nodes with
  | nil =>
    intro m hm x hx
    exact hm x hx
  | cons n rest ih =>
    intro m hm x hx
    rw [List.foldl_cons] at hx
    refine ih (dictInsert m (nodeMapKey n) n) ?_ x hx
    intro y hy
    rcases dictInsert_mem m (nodeMapKey n) n y hy with h2 | h2
    · exact hm y h2
    · rw [h2]

/-- A `nodes_map` lookup only succeeds at the stored node's own map key. -/
theorem buildNodesMap_key (nodes : List WorkflowNode) (k : List Char)
    (node : WorkflowNode) (h : mapGet (buildNodesMap nodes) k = some node) :
    k = nodeMapKey node :=
  buildNodesMap_aux nodes [] (by simp) (k, node) (mapGet_mem _ _ _ h)

/-- The two run statuses are distinct strings. -/
theorem completed_ne_failed : "completed".data ≠ "failed".data := by decide

/-- Spec of the executor's node loop: a failed NodeRun is the last one
produced, everything before it completed, and the loop's error is the
message built from the failed node's map key and error. -/
theorem runNodes_spec (handler : HandlerModel)
    (nodesMap : List (List Char × WorkflowNode)) :
    ∀ (ids : List (List Char)) (ctx : List (List Char × Json)) (nr : NodeRun),
      nr ∈ (runNodes handler nodesMap ids ctx).1 → nr.status = "failed".data →
      (∃ pre, (runNodes handler nodesMap ids ctx).1 = pre ++ [nr] ∧
        ∀ x ∈ pre, x.status = "completed".data) ∧
      ∃ k node e, mapGet nodesMap k = some node ∧
        nr.node_id = natToStr node.id ∧ nr.node_key = none ∧ nr.error = some e ∧
        (runNodes handler nodesMap ids ctx).2.1
          = some ("Node ".data ++ k ++ " failed: ".data ++ e) := by
  intro ids
  induction ids with
  | nil =>
    intro ctx nr hmem hfail
    simp [runNodes] at hmem
  | cons nid rest ih =>
    intro ctx nr hmem hfail
    cases hlook : mapGet nodesMap nid with
    | none =>
      have heq : runNodes handler nodesMap (nid :: rest) ctx
          = runNodes handler nodesMap rest ctx := by
        rw [runNodes, hlook]
      rw [heq] at hmem ⊢
      exact ih ctx nr hmem hfail
    | some node =>
      rcases executeNode_spec handler ctx node with ⟨out, tok, hh, hnr⟩ | ⟨err, hh, hnr⟩
      · have hst : ¬ (executeNode handler ctx node).1.status = "failed".data := by
          rw [hnr]
          exact completed_ne_failed
        have heq : runNodes handler nodesMap (nid :: rest) ctx
            = ((executeNode handler ctx node).1
                :: (runNodes handler nodesMap rest (executeNode handler ctx node).2).1,
               (runNodes handler nodesMap rest (executeNode handler ctx node).2).2.1,
               (runNodes handler nodesMap rest (executeNode handler ctx node).2).2.2) := by
          rw [runNodes, hlook]
          simp only [hst, if_false, ite_false]
        rw [heq] at hmem ⊢
        rcases List.mem_cons.mp hmem with h2 | h2
        · rw [h2] at hfail
          exact absurd hfail hst
        · obtain ⟨⟨pre, hpre, hall⟩, k, node2, e, hk, hid, hkey, herr, hmsg⟩ :=
            ih (executeNode handler ctx node).2 nr h2 hfail
          refine ⟨⟨(executeNode handler ctx node).1 :: pre, ?_, ?_⟩,
            k, node2, e, hk, hid, hkey, herr, hmsg⟩
          · rw [List.cons_append, hpre]
          · intro x hx
            rcases List.mem_cons.mp hx with h3 | h3
            · rw [h3, hnr]
            · exact hall x h3
      · have hst : (executeNode handler ctx node).1.status = "failed".data := by
          rw [hnr]
        have heq : runNodes handler nodesMap (nid :: rest) ctx
            = ([(executeNode handler ctx node).1],
               some ("Node ".data ++ nid ++ " failed: ".data
                 ++ (executeNode handler ctx node).1.error.getD "None".data),
               (executeNode handler ctx node).2) := by
          rw [runNodes, hlook]
          simp only [hst, if_true, ite_true]
        rw [heq] at hmem ⊢
        have hnr2 : nr = (executeNode handler ctx node).1 :=
          List.mem_singleton.mp hmem
        refine ⟨⟨[], by rw [hnr2]; rfl, by intro x hx; simp at hx⟩,
          nid, node, err, hlook, ?_, ?_, ?_, ?_⟩
        · rw [hnr2, hnr]
        · rw [hnr2, hnr]
        · rw [hnr2, hnr]
        · rw [hnr]
          rfl

/-- C2: whenever a run contains a failed NodeRun, it is the last one — the
Executor schedules nothing after it, so no later NodeRun exists, not even
pending — every earlier NodeRun completed, the run's status is `failed`,
and the run's error is exactly `"Node "` + the failed node's map key +
`" failed: "` + that NodeRun's error. -/
theorem C2_failed_node_short_circuits (handler : HandlerModel)
    (setOrder : List (List Char)) (nodes : List WorkflowNode)
    (edges : List WorkflowEdge) (inp : Json) (tt : List Char) (vars : Json)
    (wid : List Char) (nr : NodeRun)
    (hmem : nr ∈ (executeRun handler setOrder nodes edges inp tt vars wid).node_runs)
    (hfail : nr.status = "failed".data) :
    (∃ pre, (executeRun handler setOrder nodes edges inp tt vars wid).node_runs
        = pre ++ [nr] ∧ ∀ x ∈ pre, x.status = "completed".data) ∧
    (executeRun handler setOrder nodes edges inp tt vars wid).status = "failed".data ∧
    ∃ node e, mapGet (buildNodesMap nodes) (nodeMapKey node) = some node ∧
      nr.node_id = natToStr node.id ∧ nr.error = some e ∧
      (executeRun handler setOrder nodes edges inp tt vars wid).error
        = some ("Node ".data ++ nodeMapKey node ++ " failed: ".data ++ e) := by
  have hnrs : (executeRun handler setOrder nodes edges inp tt vars wid).node_runs
      = (runNodes handler (buildNodesMap nodes) (topologicalSort setOrder edges)
          (initialContext inp tt vars wid)).1 := by
    rw [executeRun]
    split <;> rfl
  rw [hnrs] at hmem
  obtain ⟨⟨pre, hpre, hall⟩, k, node, e, hk, hid, hkey, herr, hmsg⟩ :=
    runNodes_spec handler (buildNodesMap nodes) (topologicalSort setOrder edges)
      (initialContext inp tt vars wid) nr hmem hfail
  have hkk := buildNodesMap_key nodes k node hk
  have hfields : (executeRun handler setOrder nodes edges inp tt vars wid).status
        = "failed".data ∧
      (executeRun handler setOrder nodes edges inp tt vars wid).error
        = some ("Node ".data ++ k ++ " failed: ".data ++ e) := by
    rw [executeRun]
    split
    · rename_i e2 heq
      rw [hmsg] at heq
      obtain rfl := Option.some.inj heq
      exact ⟨rfl, rfl⟩
    · rename_i heq
      rw [hmsg] at heq
      exact absurd heq (by simp)
  refine ⟨⟨pre, by rw [hnrs, hpre], hall⟩, hfields.1, node, e, ?_, hid, herr, ?_⟩
  · rw [← hkk]
    exact hk
  · rw [hfields.2, hkk]

/-- C2 witness: the theorem evaluated on the one-node failing fixture. -/
theorem C2_failed_node_short_circuits_witness :
    (∃ pre, (executeRun c2handler ["S".data] [c2node] [] (Json.obj []) "manual".data
        Json.null "w".data).node_runs = pre ++ [c2nr] ∧
      ∀ x ∈ pre, x.status = "completed".data) ∧
    (executeRun c2handler ["S".data] [c2node] [] (Json.obj []) "manual".data
      Json.null "w".data).status = "failed".data ∧
    ∃ node e, mapGet (buildNodesMap [c2node]) (nodeMapKey node) = some node ∧
      c2nr.node_id = natToStr node.id ∧ c2nr.error = some e ∧
      (executeRun c2handler ["S".data] [c2node] [] (Json.obj []) "manual".data
        Json.null "w".data).error
        = some ("Node ".data ++ nodeMapKey node ++ " failed: ".data ++ e) := by
  refine C2_failed_node_short_circuits c2handler ["S".data] [c2node] [] (Json.obj [])
    "manual".data Json.null "w".data c2nr ?_ rfl
  simp +decide [executeRun, initialContext, runNodes, executeNode, resolvedData,
    buildNodesMap, dictInsert, mapGet, nodeMapKey, topologicalSort, kahnLoop,
    relaxNeighbors, initInDegree, adjacencyOf, c2node, c2handler, interpolate,
    interpolateFields, pyTruthy, natToStr, digitChar, c2nr]

/-- C10: a failed node execution leaves the NodeRun's `node_key` unset
(null) — it is assigned only on the success path, which always writes the
node's map key (`node_key or str(id)`, the author-assigned key when one is
set) — while at run level the error message of a failed run still names
that key. -/
theorem C10_node_key_only_on_success (handler : HandlerModel)
    (ctx : List (List Char × Json)) (node : WorkflowNode) :
    ((executeNode handler ctx node).1.status = "failed".data →
      (executeNode handler ctx node).1.node_key = none ∧
      (executeNode handler ctx node).1.error ≠ none) ∧
    ((executeNode handler ctx node).1.status = "completed".data →
      (executeNode handler ctx node).1.node_key = some (nodeMapKey node)) ∧
    (node.node_key ≠ [] → nodeMapKey node = node.node_key) ∧
    ∀ setOrder nodes edges inp tt vars wid nr,
      nr ∈ (executeRun handler setOrder nodes edges inp tt vars wid).node_runs →
      nr.status = "failed".data →
      ∃ node2 e, mapGet (buildNodesMap nodes) (nodeMapKey node2) = some node2 ∧
        nr.node_id = natToStr node2.id ∧ nr.node_key = none ∧
        (executeRun handler setOrder nodes edges inp tt vars wid).error
          = some ("Node ".data ++ nodeMapKey node2 ++ " failed: ".data ++ e) := by
  refine ⟨?_, ?_, ?_, ?_⟩
  · intro hfail
    rcases executeNode_spec handler ctx node with ⟨out, tok, hh, hnr⟩ | ⟨err, hh, hnr⟩
    · rw [hnr] at hfail
      exact absurd hfail completed_ne_failed
    · rw [hnr]
      exact ⟨rfl, by simp⟩
  · intro hcomp
    rcases executeNode_spec handler ctx node with ⟨out, tok, hh, hnr⟩ | ⟨err, hh, hnr⟩
    · rw [hnr]
    · rw [hnr] at hcomp
      exact absurd hcomp.symm completed_ne_failed
  · intro hne
    rw [nodeMapKey, if_neg (by simp [hne])]
  · intro setOrder nodes edges inp tt vars wid nr hmem hfail
    have hnrs : (executeRun handler setOrder nodes edges inp tt vars wid).node_runs
        = (runNodes handler (buildNodesMap nodes) (topologicalSort setOrder edges)
            (initialContext inp tt vars wid)).1 := by
      rw [executeRun]
      split <;> rfl
    rw [hnrs] at hmem
    obtain ⟨-, k, node2, e, hk, hid, hkey, herr, hmsg⟩ :=
      runNodes_spec handler (buildNodesMap nodes) (topologicalSort setOrder edges)
        (initialContext inp tt vars wid) nr hmem hfail
    have hkk := buildNodesMap_key nodes k node2 hk
    refine ⟨node2, e, by rw [← hkk]; exact hk, hid, hkey, ?_⟩
    have herr2 : (executeRun handler setOrder nodes edges inp tt vars wid).error
        = some ("Node ".data ++ k ++ " failed: ".data ++ e) := by
      rw [executeRun]
      split
      · rename_i e2 heq
        rw [hmsg] at heq
        obtain rfl := Option.some.inj heq
        rfl
      · rename_i heq
        rw [hmsg] at heq
        exact absurd heq (by simp)
    rw [herr2, hkk]

/-- C10 witness: on the fixture node, the failing handler leaves
`node_key` unset while the succeeding handler records the author key `S`. -/
theorem C10_node_key_only_on_success_witness :
    (executeNode c2handler [] c2node).1.node_key = none ∧
    (executeNode c10okHandler [] c2node).1.node_key = some "S".data := by
  constructor
  · exact ((C10_node_key_only_on_success c2handler [] c2node).1 rfl).1
  · have h := (C10_node_key_only_on_success c10okHandler [] c2node).2.1 rfl
    rw [h]
    rw [(C10_node_key_only_on_success c10okHandler [] c2node).2.2.1 (by decide)]
    rfl

end Agentkit
